import Mathlib

/-!
# Finality resolver and receipt assembler of `eth/api.go`

A shallow embedding of `getFinalizedBlockNumber` and
`PrivateDebugAPI.GetBlockReceipts`.  The collaborators the two functions call
(block chain, downloader, raw database, receipt formatter) are fields of a
record handed to the functions; a Go pointer that may be nil is an `Option`,
and a Go runtime panic is a separate kind of failure from a returned `error`.
-/

namespace EthApi

/-- A `common.Hash`: 32 bytes, kept as the number they spell. -/
abbrev Hash := Nat

/-- Conversion `(*big.Int).Uint64()`: the low 64 bits of a non-negative integer. -/
def Uint64 (x : Nat) : Nat := x % 2 ^ 64

/-- A `types.Header`, of which the code reads only `Number` (a `*big.Int`). -/
structure Header where
  Number : Nat
  deriving DecidableEq, Repr

/-- A `types.Transaction`, of which the code reads only `Hash()`. -/
structure Transaction where
  hash : Hash
  deriving DecidableEq, Repr

/-- A `types.Block`: `Hash()`, `Header()` and `Transactions()`. -/
structure Block where
  hash : Hash
  header : Header
  transactions : List Transaction
  deriving DecidableEq, Repr

/-- A `types.Receipt`: the two fields the code reads, and the rest of the
execution outcome as one number. -/
structure Receipt where
  TxHash : Hash
  TransactionIndex : Nat
  outcome : Nat
  deriving DecidableEq, Repr

/-- The triple `(doExist, number, hash)` returned by `GetWhitelistedMilestone`
and `GetWhitelistedCheckpoint`. -/
structure Whitelisted where
  doExist : Bool
  number : Nat
  hash : Hash
  deriving DecidableEq, Repr

/-- How a call can end without a result: a Go `error` value that the function
returns, or a runtime panic. -/
inductive Failure where
  | err (msg : String)
  | nilPointerDereference
  | indexOutOfRange
  deriving DecidableEq, Repr

/-- Modelled from the spec: the declarations of `Ethereum`, `BlockChain`,
`Downloader` and `rawdb` are not among the sources, so the collaborators are the
interfaces of the spec (Chain View, Finality Signal Source, Receipt Store,
Synthetic Transaction Store) under the names the code calls them by.  A lookup
that yields a nil pointer or a nil slice is `none`. -/
structure Ethereum where
  CurrentBlock : Header
  GetBlockByNumber : Nat → Option Block
  GetBlockByHash : Hash → Option Block
  GetReceiptsByHash : Hash → Option (List Receipt)
  GetWhitelistedMilestone : Whitelisted
  GetWhitelistedCheckpoint : Whitelisted
  ReadBorReceipt : Hash → Nat → Option Receipt
  ReadBorTransaction : Hash → Option Transaction

/-- Modelled from the spec: `ethapi.ToTransactionReceipt` is not among the
sources; it is the Formatter of the spec,
`format(tx, receipt, blockHash, txHash, blockNumber, index) -> ReceiptView | Error`,
with the context and backend arguments fixed.  The transaction is a pointer and
may be nil. -/
abbrev Formatter (View : Type) :=
  Option Transaction → Receipt → Hash → Hash → Nat → Nat → Except String View

/-- The message of the error built at line 77. -/
def noFinalizedBlock : String := "No finalized block"

/-- The message of the error built at line 84. -/
def blockNotFound : String := "block not found"

/-- The message of the error built at line 91. -/
def receiptsNotFound : String := "receipts not found"

/-- The message of the error built at line 96. -/
def countMismatch : String := "txs length doesn\x27t equal to receipts\x27 length"

/-- Embedding of `getFinalizedBlockNumber` (lines 56-78).  Each of the two `if`
blocks either returns from the function (`some n`), falls through (`none`), or
panics when `block.Hash()` is called on a nil block. -/
def getFinalizedBlockNumber (eth : Ethereum) : Except Failure Nat :=
  let currentBlockNum := eth.CurrentBlock
  let m := eth.GetWhitelistedMilestone
  let milestoneBlock : Except Failure (Option Nat) :=
    if m.doExist && decide (m.number ≤ Uint64 currentBlockNum.Number) then
      match eth.GetBlockByNumber m.number with
      | none => .error .nilPointerDereference
      | some block => if block.hash = m.hash then .ok (some m.number) else .ok none
    else .ok none
  match milestoneBlock with
  | .error e => .error e
  | .ok (some n) => .ok n
  | .ok none =>
    let c := eth.GetWhitelistedCheckpoint
    let checkpointBlock : Except Failure (Option Nat) :=
      if c.doExist && decide (c.number ≤ Uint64 currentBlockNum.Number) then
        match eth.GetBlockByNumber c.number with
        | none => .error .nilPointerDereference
        | some block => if block.hash = c.hash then .ok (some c.number) else .ok none
      else .ok none
    match checkpointBlock with
    | .error e => .error e
    | .ok (some n) => .ok n
    | .ok none => .error (.err noFinalizedBlock)

/-- Embedding of the loop of lines 101-110: `receipts` is what is left to range
over, `idx` the index of its head, `txReceipts` the slice built so far. -/
def formatLoop {View : Type} (format : Formatter View) (txs : List Transaction)
    (blockHash : Hash) (blockNumber : Nat) :
    List Receipt → Nat → List View → Except Failure (List View)
  | [], _, txReceipts => .ok txReceipts
  | receipt :: rest, idx, txReceipts =>
    match txs[idx]? with
    | none => .error .indexOutOfRange
    | some tx =>
      match format (some tx) receipt blockHash tx.hash (Uint64 blockNumber) idx with
      | .error e => .error (.err e)
      | .ok fields => formatLoop format txs blockHash blockNumber rest (idx + 1) (txReceipts ++ [fields])

/-- Embedding of `PrivateDebugAPI.GetBlockReceipts` (lines 81-125). -/
def GetBlockReceipts {View : Type} (eth : Ethereum) (format : Formatter View)
    (blockHash : Hash) : Except Failure (List View) :=
  match eth.GetBlockByHash blockHash with
  | none => .error (.err blockNotFound)
  | some block =>
    let blockNumber := block.header.Number
    match eth.GetReceiptsByHash blockHash with
    | none => .error (.err receiptsNotFound)
    | some receipts =>
      let txs := block.transactions
      if txs.length ≠ receipts.length then
        .error (.err countMismatch)
      else
        match formatLoop format txs blockHash blockNumber receipts 0 [] with
        | .error e => .error e
        | .ok txReceipts =>
          match eth.ReadBorReceipt blockHash (Uint64 blockNumber) with
          | none => .ok txReceipts
          | some receipt =>
            let tx := eth.ReadBorTransaction receipt.TxHash
            match format tx receipt blockHash receipt.TxHash (Uint64 blockNumber)
                receipt.TransactionIndex with
            | .error e => .error (.err e)
            | .ok fields => .ok (txReceipts ++ [fields])

/-! ## Concrete chains used to evaluate the functions -/

/-- A block of the sample chain: number `n`, hash `1000 + n`, no transactions. -/
def sampleBlock (n : Nat) : Block := ⟨1000 + n, ⟨n⟩, []⟩

/-- A chain of height 100 with a block at every number, and the two signals given. -/
def sampleChain (m c : Whitelisted) : Ethereum where
  CurrentBlock := ⟨100⟩
  GetBlockByNumber := fun n => some (sampleBlock n)
  GetBlockByHash := fun _ => none
  GetReceiptsByHash := fun _ => none
  GetWhitelistedMilestone := m
  GetWhitelistedCheckpoint := c
  ReadBorReceipt := fun _ _ => none
  ReadBorTransaction := fun _ => none

/-- A chain of height 100 that holds no block below number 64 (its old blocks
are gone), and the two signals given. -/
def prunedChain (m c : Whitelisted) : Ethereum where
  CurrentBlock := ⟨100⟩
  GetBlockByNumber := fun n => if n < 64 then none else some (sampleBlock n)
  GetBlockByHash := fun _ => none
  GetReceiptsByHash := fun _ => none
  GetWhitelistedMilestone := m
  GetWhitelistedCheckpoint := c
  ReadBorReceipt := fun _ _ => none
  ReadBorTransaction := fun _ => none

/-- The view built by `recordingFormatter`: the six arguments it was given. -/
structure ReceiptFields where
  tx : Option Transaction
  receipt : Receipt
  blockHash : Hash
  txHash : Hash
  blockNumber : Nat
  index : Nat
  deriving DecidableEq, Repr

/-- A formatter that never fails and keeps its arguments. -/
def recordingFormatter : Formatter ReceiptFields :=
  fun tx receipt blockHash txHash blockNumber index =>
    .ok ⟨tx, receipt, blockHash, txHash, blockNumber, index⟩

/-- A formatter that fails on the receipts whose outcome is 0 and keeps its
arguments on the others. -/
def strictFormatter : Formatter ReceiptFields :=
  fun tx receipt blockHash txHash blockNumber index =>
    if receipt.outcome = 0 then .error "receipt without outcome"
    else .ok ⟨tx, receipt, blockHash, txHash, blockNumber, index⟩

/-- The block of the sample store: hash 500, number 7, two transactions. -/
def storedBlock : Block := ⟨500, ⟨7⟩, [⟨11⟩, ⟨12⟩]⟩

/-- A store that knows `storedBlock` under hash 500, with the receipt list
`receipts` for it, the synthetic receipt `syn` for (500, 7), and the synthetic
transaction `synTx` under hash 77. -/
def sampleStore (receipts : Option (List Receipt)) (syn : Option Receipt)
    (synTx : Option Transaction) : Ethereum where
  CurrentBlock := ⟨100⟩
  GetBlockByNumber := fun _ => none
  GetBlockByHash := fun h => if h = 500 then some storedBlock else none
  GetReceiptsByHash := fun h => if h = 500 then receipts else none
  GetWhitelistedMilestone := ⟨false, 0, 0⟩
  GetWhitelistedCheckpoint := ⟨false, 0, 0⟩
  ReadBorReceipt := fun h n => if h = 500 ∧ n = 7 then syn else none
  ReadBorTransaction := fun h => if h = 77 then synTx else none

/-- The matching routine of the reference resolver, in the words of the spec:
the signal is present, its number is at most the height `H`, and the hash of the
local block at its number is the signal's hash.  Where the chain view has no
block at that number there is no hash to compare and the signal does not match. -/
def signalMatches (eth : Ethereum) (s : Whitelisted) (H : Nat) : Bool :=
  s.doExist && decide (s.number ≤ H) &&
    (match eth.GetBlockByNumber s.number with
      | none => false
      | some block => decide (block.hash = s.hash))

/-- The reference resolver, in the words of the spec: the matching routine is
applied to the milestone and then the checkpoint, and the number of the first
signal that matches is returned; if none matches the call fails with
"No finalized block". -/
def referenceResolver (eth : Ethereum) : Except Failure Nat :=
  let H := Uint64 eth.CurrentBlock.Number
  match [eth.GetWhitelistedMilestone, eth.GetWhitelistedCheckpoint].find?
      (fun s => signalMatches eth s H) with
  | some s => .ok s.number
  | none => .error (.err noFinalizedBlock)

/-! ## Finality resolver -/

/-- C1: a milestone that is present, not above the height, and whose hash is
that of the local block at its number is the result, whatever the checkpoint. -/
theorem milestone_match_returns (eth : Ethereum) (block : Block)
    (hp : eth.GetWhitelistedMilestone.doExist = true)
    (hn : eth.GetWhitelistedMilestone.number ≤ Uint64 eth.CurrentBlock.Number)
    (hb : eth.GetBlockByNumber eth.GetWhitelistedMilestone.number = some block)
    (hh : block.hash = eth.GetWhitelistedMilestone.hash) :
    getFinalizedBlockNumber eth = .ok eth.GetWhitelistedMilestone.number := by
  simp [getFinalizedBlockNumber, hp, hn, hb, hh]

/-- C1 at the spec's example (milestone 90, height 100), with a valid checkpoint
naming another number. -/
theorem milestone_match_returns_witness :
    getFinalizedBlockNumber (sampleChain ⟨true, 90, 1090⟩ ⟨true, 50, 1050⟩) = .ok 90 :=
  milestone_match_returns (sampleChain ⟨true, 90, 1090⟩ ⟨true, 50, 1050⟩) (sampleBlock 90)
    rfl (by decide) rfl rfl

/-- C2: when the milestone is absent, or above the height, or the local block
at its number has another hash, and the checkpoint is present, not above the
height, and has the hash of the local block at its number, the result is the
checkpoint's number. -/
theorem checkpoint_match_returns (eth : Ethereum) (block : Block)
    (hm : eth.GetWhitelistedMilestone.doExist = false ∨
      Uint64 eth.CurrentBlock.Number < eth.GetWhitelistedMilestone.number ∨
      ∃ b, eth.GetBlockByNumber eth.GetWhitelistedMilestone.number = some b ∧
        b.hash ≠ eth.GetWhitelistedMilestone.hash)
    (hp : eth.GetWhitelistedCheckpoint.doExist = true)
    (hn : eth.GetWhitelistedCheckpoint.number ≤ Uint64 eth.CurrentBlock.Number)
    (hb : eth.GetBlockByNumber eth.GetWhitelistedCheckpoint.number = some block)
    (hh : block.hash = eth.GetWhitelistedCheckpoint.hash) :
    getFinalizedBlockNumber eth = .ok eth.GetWhitelistedCheckpoint.number := by
  rcases hm with h | h | ⟨b, h1, h2⟩
  · simp [getFinalizedBlockNumber, h, hp, hn, hb, hh]
  · simp [getFinalizedBlockNumber, Nat.not_le.mpr h, hp, hn, hb, hh]
  · by_cases hc : eth.GetWhitelistedMilestone.doExist = true ∧
        eth.GetWhitelistedMilestone.number ≤ Uint64 eth.CurrentBlock.Number
    · simp [getFinalizedBlockNumber, hc.1, hc.2, h1, h2, hp, hn, hb, hh]
    · have hc2 : (eth.GetWhitelistedMilestone.doExist &&
          decide (eth.GetWhitelistedMilestone.number ≤ Uint64 eth.CurrentBlock.Number))
          = false := by
        simpa using hc
      simp [getFinalizedBlockNumber, hc2, hp, hn, hb, hh]

/-- C2 where the milestone is present and within the height but names a hash
that the local block at 90 does not have: the checkpoint at 50 is returned. -/
theorem checkpoint_match_returns_witness :
    getFinalizedBlockNumber (sampleChain ⟨true, 90, 7⟩ ⟨true, 50, 1050⟩) = .ok 50 :=
  checkpoint_match_returns (sampleChain ⟨true, 90, 7⟩ ⟨true, 50, 1050⟩) (sampleBlock 50)
    (Or.inr (Or.inr ⟨sampleBlock 90, rfl, by decide⟩)) rfl (by decide) rfl rfl

/-- C3: when each of the milestone and the checkpoint is absent, or above the
height, or names a hash that the local block at its number does not have, the
call fails with the error "No finalized block". -/
theorem no_match_fails (eth : Ethereum)
    (hm : eth.GetWhitelistedMilestone.doExist = false ∨
      Uint64 eth.CurrentBlock.Number < eth.GetWhitelistedMilestone.number ∨
      ∃ b, eth.GetBlockByNumber eth.GetWhitelistedMilestone.number = some b ∧
        b.hash ≠ eth.GetWhitelistedMilestone.hash)
    (hc : eth.GetWhitelistedCheckpoint.doExist = false ∨
      Uint64 eth.CurrentBlock.Number < eth.GetWhitelistedCheckpoint.number ∨
      ∃ b, eth.GetBlockByNumber eth.GetWhitelistedCheckpoint.number = some b ∧
        b.hash ≠ eth.GetWhitelistedCheckpoint.hash) :
    getFinalizedBlockNumber eth = .error (.err "No finalized block") := by
  have tier : ∀ s : Whitelisted,
      (s.doExist = false ∨ Uint64 eth.CurrentBlock.Number < s.number ∨
        ∃ b, eth.GetBlockByNumber s.number = some b ∧ b.hash ≠ s.hash) →
      (if (s.doExist && decide (s.number ≤ Uint64 eth.CurrentBlock.Number)) = true then
        (match eth.GetBlockByNumber s.number with
          | none => (.error .nilPointerDereference : Except Failure (Option Nat))
          | some block => if block.hash = s.hash then .ok (some s.number) else .ok none)
        else .ok none) = .ok none := by
    intro s hs
    rcases hs with h | h | ⟨b, h1, h2⟩
    · simp [h]
    · simp [Nat.not_le.mpr h]
    · split
      · simp [h1, h2]
      · rfl
  have e1 := tier _ hm
  have e2 := tier _ hc
  simp only [getFinalizedBlockNumber, e1, e2, noFinalizedBlock]

/-- C3 with a milestone whose hash differs from the local block at 90 and a
checkpoint that is absent. -/
theorem no_match_fails_witness :
    getFinalizedBlockNumber (sampleChain ⟨true, 90, 7⟩ ⟨false, 0, 0⟩)
      = .error (.err "No finalized block") :=
  no_match_fails (sampleChain ⟨true, 90, 7⟩ ⟨false, 0, 0⟩)
    (Or.inr (Or.inr ⟨sampleBlock 90, rfl, by decide⟩)) (Or.inl rfl)

/-- C4: a number the call returns is at most the height read at the start, and
is the number of a present signal (milestone or checkpoint) whose hash is the
hash of the local block at that number. -/
theorem result_is_verified_anchor (eth : Ethereum) (n : Nat)
    (h : getFinalizedBlockNumber eth = .ok n) :
    n ≤ Uint64 eth.CurrentBlock.Number ∧
      ∃ s, (s = eth.GetWhitelistedMilestone ∨ s = eth.GetWhitelistedCheckpoint) ∧
        s.doExist = true ∧ s.number = n ∧
        ∃ block, eth.GetBlockByNumber n = some block ∧ block.hash = s.hash := by
  have tier : ∀ s : Whitelisted,
      (if (s.doExist && decide (s.number ≤ Uint64 eth.CurrentBlock.Number)) = true then
        (match eth.GetBlockByNumber s.number with
          | none => (.error .nilPointerDereference : Except Failure (Option Nat))
          | some block => if block.hash = s.hash then .ok (some s.number) else .ok none)
        else .ok none) = .ok (some n) →
      n ≤ Uint64 eth.CurrentBlock.Number ∧ s.doExist = true ∧ s.number = n ∧
        ∃ block, eth.GetBlockByNumber n = some block ∧ block.hash = s.hash := by
    intro s hs
    split at hs
    · rename_i hc
      simp only [Bool.and_eq_true, decide_eq_true_eq] at hc
      cases hb : eth.GetBlockByNumber s.number with
      | none => simp [hb] at hs
      | some block =>
        simp only [hb] at hs
        split at hs
        · rename_i hh
          have hn : s.number = n := by simpa using hs
          subst hn
          exact ⟨hc.2, hc.1, rfl, block, hb, hh⟩
        · simp at hs
    · simp at hs
  simp only [getFinalizedBlockNumber] at h
  split at h
  · simp at h
  · rename_i k hk
    have hkn : k = n := by simpa using h
    subst hkn
    obtain ⟨h1, h2, h3, h4⟩ := tier _ hk
    exact ⟨h1, _, Or.inl rfl, h2, h3, h4⟩
  · split at h
    · simp at h
    · rename_i k hk
      have hkn : k = n := by simpa using h
      subst hkn
      obtain ⟨h1, h2, h3, h4⟩ := tier _ hk
      exact ⟨h1, _, Or.inr rfl, h2, h3, h4⟩
    · simp at h

/-- C4 on the chain of the spec's second example: the returned 50 is the
checkpoint, verified against the local block at 50. -/
theorem result_is_verified_anchor_witness :
    50 ≤ Uint64 (sampleChain ⟨true, 110, 1110⟩ ⟨true, 50, 1050⟩).CurrentBlock.Number ∧
      ∃ s, (s = (sampleChain ⟨true, 110, 1110⟩ ⟨true, 50, 1050⟩).GetWhitelistedMilestone ∨
          s = (sampleChain ⟨true, 110, 1110⟩ ⟨true, 50, 1050⟩).GetWhitelistedCheckpoint) ∧
        s.doExist = true ∧ s.number = 50 ∧
        ∃ block, (sampleChain ⟨true, 110, 1110⟩ ⟨true, 50, 1050⟩).GetBlockByNumber 50
          = some block ∧ block.hash = s.hash :=
  result_is_verified_anchor (sampleChain ⟨true, 110, 1110⟩ ⟨true, 50, 1050⟩) 50 rfl

/-- C5: on a chain of height 100 that has no block at number 40, with the
milestone present at 40 and a checkpoint matching at 70, the call ends in a
nil pointer dereference: it neither returns a number nor fails with
"No finalized block". -/
theorem absent_block_panics :
    getFinalizedBlockNumber (prunedChain ⟨true, 40, 1040⟩ ⟨true, 70, 1070⟩)
      = .error .nilPointerDereference := by
  rfl

/-! ## Receipt assembler -/

/-- The loop of lines 101-110, started at index `idx` with at least as many
transactions left as receipts, either appends one view per receipt, each the
formatter's output for its pair and index, or stops at the first pair the
formatter rejects and fails with that error. -/
theorem formatLoop_spec {View : Type} (format : Formatter View) (txs : List Transaction)
    (blockHash blockNumber : Nat) :
    ∀ (receipts : List Receipt) (idx : Nat) (acc : List View),
      idx + receipts.length ≤ txs.length →
      (∃ vs, formatLoop format txs blockHash blockNumber receipts idx acc = .ok (acc ++ vs) ∧
          vs.length = receipts.length ∧
          ∀ j tx r, txs[idx + j]? = some tx → receipts[j]? = some r →
            ∃ v, vs[j]? = some v ∧
              format (some tx) r blockHash tx.hash (Uint64 blockNumber) (idx + j) = .ok v) ∨
      (∃ j tx r e, txs[idx + j]? = some tx ∧ receipts[j]? = some r ∧
          format (some tx) r blockHash tx.hash (Uint64 blockNumber) (idx + j) = .error e ∧
          (∀ k tx r, k < j → txs[idx + k]? = some tx → receipts[k]? = some r →
            ∃ v, format (some tx) r blockHash tx.hash (Uint64 blockNumber) (idx + k) = .ok v) ∧
          formatLoop format txs blockHash blockNumber receipts idx acc = .error (.err e)) := by
  intro receipts
  induction receipts with
  | nil =>
    intro idx acc _
    left
    exact ⟨[], by simp [formatLoop], rfl, by intro j tx r _ hr; simp at hr⟩
  | cons receipt rest ih =>
    intro idx acc hlen
    have hidx : idx < txs.length := by
      simp only [List.length_cons] at hlen
      omega
    have htx : txs[idx]? = some txs[idx] := List.getElem?_eq_getElem hidx
    cases hf : format (some txs[idx]) receipt blockHash txs[idx].hash (Uint64 blockNumber) idx with
    | error e =>
      right
      refine ⟨0, txs[idx], receipt, e, by simp, by simp, by simpa using hf, ?_, ?_⟩
      · intro k tx r hk
        omega
      · simp [formatLoop, htx, hf]
    | ok v =>
      have hlen2 : idx + 1 + rest.length ≤ txs.length := by
        simp only [List.length_cons] at hlen
        omega
      rcases ih (idx + 1) (acc ++ [v]) hlen2 with
        ⟨vs, h1, h2, h3⟩ | ⟨j, tx, r, e, h1, h2, h3, h4, h5⟩
      · left
        refine ⟨v :: vs, by simp [formatLoop, htx, hf, h1], by simp [h2], ?_⟩
        intro j tx r ht hr
        cases j with
        | zero =>
          simp only [Nat.add_zero, htx, Option.some.injEq] at ht
          simp only [List.getElem?_cons_zero, Option.some.injEq] at hr
          subst ht
          subst hr
          exact ⟨v, by simp, by simpa using hf⟩
        | succ j =>
          have e1 : idx + (j + 1) = idx + 1 + j := by omega
          rw [e1] at ht
          simp only [List.getElem?_cons_succ] at hr
          obtain ⟨w, hw1, hw2⟩ := h3 j tx r ht hr
          exact ⟨w, by simpa using hw1, by rw [e1]; exact hw2⟩
      · right
        have e1 : idx + (j + 1) = idx + 1 + j := by omega
        refine ⟨j + 1, tx, r, e, by rw [e1]; exact h1, by simpa using h2,
          by rw [e1]; exact h3, ?_, by simp [formatLoop, htx, hf, h5]⟩
        intro k tx2 r2 hk ht hr
        cases k with
        | zero =>
          simp only [Nat.add_zero, htx, Option.some.injEq] at ht
          simp only [List.getElem?_cons_zero, Option.some.injEq] at hr
          subst ht
          subst hr
          exact ⟨v, by simpa using hf⟩
        | succ k =>
          have e2 : idx + (k + 1) = idx + 1 + k := by omega
          rw [e2] at ht
          simp only [List.getElem?_cons_succ] at hr
          obtain ⟨w, hw⟩ := h4 k tx2 r2 (by omega) ht hr
          exact ⟨w, by rw [e2]; exact hw⟩

/-- C6: for a block with N transactions and N receipts, no synthetic receipt,
and a formatter that accepts every (transaction, receipt) pair, the call
returns N views, the i-th being the formatter's output for
(txs[i], receipts[i], blockHash, txs[i].hash, block number, i). -/
theorem natural_receipts_in_order {View : Type} (eth : Ethereum) (format : Formatter View)
    (blockHash : Hash) (block : Block) (receipts : List Receipt)
    (hb : eth.GetBlockByHash blockHash = some block)
    (hr : eth.GetReceiptsByHash blockHash = some receipts)
    (hlen : receipts.length = block.transactions.length)
    (hs : eth.ReadBorReceipt blockHash (Uint64 block.header.Number) = none)
    (hf : ∀ i tx r, block.transactions[i]? = some tx → receipts[i]? = some r →
      ∃ v, format (some tx) r blockHash tx.hash (Uint64 block.header.Number) i = .ok v) :
    ∃ views, GetBlockReceipts eth format blockHash = .ok views ∧
      views.length = block.transactions.length ∧
      ∀ i tx r, block.transactions[i]? = some tx → receipts[i]? = some r →
        ∃ v, views[i]? = some v ∧
          format (some tx) r blockHash tx.hash (Uint64 block.header.Number) i = .ok v := by
  rcases formatLoop_spec format block.transactions blockHash block.header.Number receipts 0 []
      (by omega) with ⟨vs, h1, h2, h3⟩ | ⟨j, tx, r, e, h1, h2, h3, _, _⟩
  · refine ⟨vs, ?_, by omega, ?_⟩
    · simp only [List.nil_append] at h1
      simp [GetBlockReceipts, hb, hr, hlen, h1, hs]
    · intro i tx r ht hri
      simpa using h3 i tx r (by simpa using ht) hri
  · simp only [Nat.zero_add] at h1 h3
    obtain ⟨v, hv⟩ := hf j tx r h1 h2
    rw [hv] at h3
    cases h3

/-- C6 on the sample store: two transactions, two receipts, no synthetic
receipt, a formatter that never fails. -/
theorem natural_receipts_in_order_witness :
    ∃ views, GetBlockReceipts (sampleStore (some [⟨11, 0, 1⟩, ⟨12, 1, 1⟩]) none none)
        recordingFormatter 500 = .ok views ∧
      views.length = storedBlock.transactions.length ∧
      ∀ i tx r, storedBlock.transactions[i]? = some tx →
        [(⟨11, 0, 1⟩ : Receipt), ⟨12, 1, 1⟩][i]? = some r →
        ∃ v, views[i]? = some v ∧
          recordingFormatter (some tx) r 500 tx.hash (Uint64 storedBlock.header.Number) i
            = .ok v :=
  natural_receipts_in_order (sampleStore (some [⟨11, 0, 1⟩, ⟨12, 1, 1⟩]) none none)
    recordingFormatter 500 storedBlock [⟨11, 0, 1⟩, ⟨12, 1, 1⟩] rfl rfl rfl rfl
    (fun _ _ _ _ _ => ⟨_, rfl⟩)

/-- C7: when a synthetic receipt exists for (blockHash, block number) and the
formatter accepts every pair, the call returns N + 1 views: the N natural views
in block order with indices 0..N-1, then the formatter's output for the
synthetic pair with the receipt's recorded index.  On the sample store that
index is 5 while N is 2. -/
theorem synthetic_receipt_last :
    (∀ (View : Type) (eth : Ethereum) (format : Formatter View) (blockHash : Hash)
        (block : Block) (receipts : List Receipt) (syn : Receipt),
      eth.GetBlockByHash blockHash = some block →
      eth.GetReceiptsByHash blockHash = some receipts →
      receipts.length = block.transactions.length →
      eth.ReadBorReceipt blockHash (Uint64 block.header.Number) = some syn →
      (∀ i tx r, block.transactions[i]? = some tx → receipts[i]? = some r →
        ∃ v, format (some tx) r blockHash tx.hash (Uint64 block.header.Number) i = .ok v) →
      (∃ v, format (eth.ReadBorTransaction syn.TxHash) syn blockHash syn.TxHash
        (Uint64 block.header.Number) syn.TransactionIndex = .ok v) →
      ∃ views, GetBlockReceipts eth format blockHash = .ok views ∧
        views.length = block.transactions.length + 1 ∧
        (∀ i tx r, block.transactions[i]? = some tx → receipts[i]? = some r →
          ∃ v, views[i]? = some v ∧
            format (some tx) r blockHash tx.hash (Uint64 block.header.Number) i = .ok v) ∧
        ∃ v, views[block.transactions.length]? = some v ∧
          format (eth.ReadBorTransaction syn.TxHash) syn blockHash syn.TxHash
            (Uint64 block.header.Number) syn.TransactionIndex = .ok v) ∧
    (∃ views last,
      GetBlockReceipts (sampleStore (some [⟨11, 0, 1⟩, ⟨12, 1, 1⟩]) (some ⟨77, 5, 1⟩)
        (some ⟨77⟩)) recordingFormatter 500 = .ok views ∧
      views[storedBlock.transactions.length]? = some last ∧
      last.index = 5 ∧ last.index ≠ storedBlock.transactions.length) := by
  constructor
  · intro View eth format blockHash block receipts syn hb hr hlen hs hf hsyn
    obtain ⟨w, hw⟩ := hsyn
    rcases formatLoop_spec format block.transactions blockHash block.header.Number receipts 0 []
        (by omega) with ⟨vs, h1, h2, h3⟩ | ⟨j, tx, r, e, h1, h2, h3, _, _⟩
    · simp only [List.nil_append] at h1
      refine ⟨vs ++ [w], ?_, by simp; omega, ?_, ?_⟩
      · simp [GetBlockReceipts, hb, hr, hlen, h1, hs, hw]
      · intro i tx r ht hri
        obtain ⟨v, hv1, hv2⟩ := h3 i tx r (by simpa using ht) hri
        simp only [Nat.zero_add] at hv2
        refine ⟨v, ?_, hv2⟩
        have hi : i < vs.length := by
          by_contra hcon
          rw [List.getElem?_eq_none (by omega)] at hv1
          cases hv1
        rw [List.getElem?_append_left hi]
        exact hv1
      · refine ⟨w, ?_, hw⟩
        have hN : block.transactions.length = vs.length := by omega
        rw [hN]
        simp
    · simp only [Nat.zero_add] at h1 h3
      obtain ⟨v, hv⟩ := hf j tx r h1 h2
      rw [hv] at h3
      cases h3
  · exact ⟨_, ⟨some ⟨77⟩, ⟨77, 5, 1⟩, 500, 77, 7, 5⟩, rfl, rfl, rfl, by decide⟩

/-- C7 on the sample store: two natural views, then the synthetic view built
with the recorded index 5. -/
theorem synthetic_receipt_last_witness :
    ∃ views, GetBlockReceipts (sampleStore (some [⟨11, 0, 1⟩, ⟨12, 1, 1⟩]) (some ⟨77, 5, 1⟩)
        (some ⟨77⟩)) recordingFormatter 500 = .ok views ∧
      views.length = storedBlock.transactions.length + 1 ∧
      (∀ i tx r, storedBlock.transactions[i]? = some tx →
        [(⟨11, 0, 1⟩ : Receipt), ⟨12, 1, 1⟩][i]? = some r →
        ∃ v, views[i]? = some v ∧
          recordingFormatter (some tx) r 500 tx.hash (Uint64 storedBlock.header.Number) i
            = .ok v) ∧
      ∃ v, views[storedBlock.transactions.length]? = some v ∧
        recordingFormatter ((sampleStore (some [⟨11, 0, 1⟩, ⟨12, 1, 1⟩]) (some ⟨77, 5, 1⟩)
          (some ⟨77⟩)).ReadBorTransaction (⟨77, 5, 1⟩ : Receipt).TxHash) ⟨77, 5, 1⟩ 500
          (⟨77, 5, 1⟩ : Receipt).TxHash (Uint64 storedBlock.header.Number)
          (⟨77, 5, 1⟩ : Receipt).TransactionIndex = .ok v :=
  synthetic_receipt_last.1 ReceiptFields
    (sampleStore (some [⟨11, 0, 1⟩, ⟨12, 1, 1⟩]) (some ⟨77, 5, 1⟩) (some ⟨77⟩))
    recordingFormatter 500 storedBlock [⟨11, 0, 1⟩, ⟨12, 1, 1⟩] ⟨77, 5, 1⟩ rfl rfl rfl rfl
    (fun _ _ _ _ _ => ⟨_, rfl⟩) ⟨_, rfl⟩

/-- C8: when the block is found and its receipt list is present with a length
other than the number of transactions, the call fails with the count-mismatch
error, whatever the formatter and the synthetic store are. -/
theorem count_mismatch_fails {View : Type} (eth : Ethereum) (format : Formatter View)
    (blockHash : Hash) (block : Block) (receipts : List Receipt)
    (hb : eth.GetBlockByHash blockHash = some block)
    (hr : eth.GetReceiptsByHash blockHash = some receipts)
    (hne : receipts.length ≠ block.transactions.length) :
    GetBlockReceipts eth format blockHash
      = .error (.err "txs length doesn\x27t equal to receipts\x27 length") := by
  have hne2 : block.transactions.length ≠ receipts.length := fun h => hne h.symm
  simp [GetBlockReceipts, hb, hr, hne2, countMismatch]

/-- C8 on the sample store with one receipt for two transactions, a synthetic
receipt present and a formatter that never fails. -/
theorem count_mismatch_fails_witness :
    GetBlockReceipts (sampleStore (some [⟨11, 0, 1⟩]) (some ⟨77, 5, 1⟩) (some ⟨77⟩))
        recordingFormatter 500
      = .error (.err "txs length doesn\x27t equal to receipts\x27 length") :=
  count_mismatch_fails (sampleStore (some [⟨11, 0, 1⟩]) (some ⟨77, 5, 1⟩) (some ⟨77⟩))
    recordingFormatter 500 storedBlock [⟨11, 0, 1⟩] rfl rfl (by decide)

/-- C9: with the block and its N receipts present and the counts equal, if the
formatter fails on a natural pair, or on the synthetic pair of an existing
synthetic receipt, the call fails with an error of the formatter on one of
these pairs and returns no views. -/
theorem formatter_failure_aborts {View : Type} (eth : Ethereum) (format : Formatter View)
    (blockHash : Hash) (block : Block) (receipts : List Receipt)
    (hb : eth.GetBlockByHash blockHash = some block)
    (hr : eth.GetReceiptsByHash blockHash = some receipts)
    (hlen : receipts.length = block.transactions.length)
    (hfail : (∃ i tx r e, block.transactions[i]? = some tx ∧ receipts[i]? = some r ∧
        format (some tx) r blockHash tx.hash (Uint64 block.header.Number) i = .error e) ∨
      (∃ syn e, eth.ReadBorReceipt blockHash (Uint64 block.header.Number) = some syn ∧
        format (eth.ReadBorTransaction syn.TxHash) syn blockHash syn.TxHash
          (Uint64 block.header.Number) syn.TransactionIndex = .error e)) :
    ∃ e, GetBlockReceipts eth format blockHash = .error (.err e) ∧
      ((∃ i tx r, block.transactions[i]? = some tx ∧ receipts[i]? = some r ∧
        format (some tx) r blockHash tx.hash (Uint64 block.header.Number) i = .error e) ∨
      (∃ syn, eth.ReadBorReceipt blockHash (Uint64 block.header.Number) = some syn ∧
        format (eth.ReadBorTransaction syn.TxHash) syn blockHash syn.TxHash
          (Uint64 block.header.Number) syn.TransactionIndex = .error e)) := by
  rcases formatLoop_spec format block.transactions blockHash block.header.Number receipts 0 []
      (by omega) with ⟨vs, h1, _, h3⟩ | ⟨j, tx, r, e, h1, h2, h3, _, h5⟩
  · simp only [List.nil_append] at h1
    rcases hfail with ⟨i, tx, r, e, ht, hri, he⟩ | ⟨syn, e, hs, he⟩
    · obtain ⟨v, _, hv⟩ := h3 i tx r (by simpa using ht) hri
      simp only [Nat.zero_add] at hv
      rw [hv] at he
      cases he
    · exact ⟨e, by simp [GetBlockReceipts, hb, hr, hlen, h1, hs, he], Or.inr ⟨syn, hs, he⟩⟩
  · simp only [Nat.zero_add] at h1 h3
    exact ⟨e, by simp [GetBlockReceipts, hb, hr, hlen, h5], Or.inl ⟨j, tx, r, h1, h2, h3⟩⟩

/-- C9 on the sample store: the formatter accepts the first pair and rejects
the second, and the call returns the error and not the first view. -/
theorem formatter_failure_aborts_witness :
    ∃ e, GetBlockReceipts (sampleStore (some [⟨11, 0, 1⟩, ⟨12, 1, 0⟩]) none none)
        strictFormatter 500 = .error (.err e) ∧
      ((∃ i tx r, storedBlock.transactions[i]? = some tx ∧
        [(⟨11, 0, 1⟩ : Receipt), ⟨12, 1, 0⟩][i]? = some r ∧
        strictFormatter (some tx) r 500 tx.hash (Uint64 storedBlock.header.Number) i
          = .error e) ∨
      (∃ syn, (sampleStore (some [⟨11, 0, 1⟩, ⟨12, 1, 0⟩]) none none).ReadBorReceipt 500
          (Uint64 storedBlock.header.Number) = some syn ∧
        strictFormatter ((sampleStore (some [⟨11, 0, 1⟩, ⟨12, 1, 0⟩]) none none).ReadBorTransaction
          syn.TxHash) syn 500 syn.TxHash (Uint64 storedBlock.header.Number)
          syn.TransactionIndex = .error e)) :=
  formatter_failure_aborts (sampleStore (some [⟨11, 0, 1⟩, ⟨12, 1, 0⟩]) none none)
    strictFormatter 500 storedBlock [⟨11, 0, 1⟩, ⟨12, 1, 0⟩] rfl rfl rfl
    (Or.inl ⟨1, ⟨12⟩, ⟨12, 1, 0⟩, "receipt without outcome", rfl, rfl, rfl⟩)

/-- C10: when no block is known under the hash, the call fails with the error
"block not found", whatever the stores and the formatter are. -/
theorem unknown_block_fails {View : Type} (eth : Ethereum) (format : Formatter View)
    (blockHash : Hash) (hb : eth.GetBlockByHash blockHash = none) :
    GetBlockReceipts eth format blockHash = .error (.err "block not found") := by
  simp [GetBlockReceipts, hb, blockNotFound]

/-- C10 on the sample store, which knows no block under hash 499 although it
holds receipts and a synthetic receipt for hash 500. -/
theorem unknown_block_fails_witness :
    GetBlockReceipts (sampleStore (some [⟨11, 0, 1⟩, ⟨12, 1, 1⟩]) (some ⟨77, 5, 1⟩)
        (some ⟨77⟩)) recordingFormatter 499 = .error (.err "block not found") :=
  unknown_block_fails (sampleStore (some [⟨11, 0, 1⟩, ⟨12, 1, 1⟩]) (some ⟨77, 5, 1⟩)
    (some ⟨77⟩)) recordingFormatter 499 rfl

/-- Outcome of the call once the block and its receipts are found and the
counts agree: either the loop built one view per pair and the result is decided
by the synthetic receipt (none, accepted by the formatter, or rejected by it),
or the loop stopped at the first pair the formatter rejects. -/
theorem GetBlockReceipts_outcome {View : Type} (eth : Ethereum) (format : Formatter View)
    (blockHash : Hash) (block : Block) (receipts : List Receipt)
    (hb : eth.GetBlockByHash blockHash = some block)
    (hr : eth.GetReceiptsByHash blockHash = some receipts)
    (hlen : receipts.length = block.transactions.length) :
    (∃ vs, vs.length = receipts.length ∧
        (∀ j tx r, block.transactions[j]? = some tx → receipts[j]? = some r →
          ∃ v, vs[j]? = some v ∧
            format (some tx) r blockHash tx.hash (Uint64 block.header.Number) j = .ok v) ∧
        ((eth.ReadBorReceipt blockHash (Uint64 block.header.Number) = none ∧
            GetBlockReceipts eth format blockHash = .ok vs) ∨
          (∃ syn v, eth.ReadBorReceipt blockHash (Uint64 block.header.Number) = some syn ∧
            format (eth.ReadBorTransaction syn.TxHash) syn blockHash syn.TxHash
              (Uint64 block.header.Number) syn.TransactionIndex = .ok v ∧
            GetBlockReceipts eth format blockHash = .ok (vs ++ [v])) ∨
          (∃ syn e, eth.ReadBorReceipt blockHash (Uint64 block.header.Number) = some syn ∧
            format (eth.ReadBorTransaction syn.TxHash) syn blockHash syn.TxHash
              (Uint64 block.header.Number) syn.TransactionIndex = .error e ∧
            GetBlockReceipts eth format blockHash = .error (.err e)))) ∨
    (∃ j tx r e, block.transactions[j]? = some tx ∧ receipts[j]? = some r ∧
        format (some tx) r blockHash tx.hash (Uint64 block.header.Number) j = .error e ∧
        (∀ k tx r, k < j → block.transactions[k]? = some tx → receipts[k]? = some r →
          ∃ v, format (some tx) r blockHash tx.hash (Uint64 block.header.Number) k = .ok v) ∧
        GetBlockReceipts eth format blockHash = .error (.err e)) := by
  rcases formatLoop_spec format block.transactions blockHash block.header.Number receipts 0 []
      (by omega) with ⟨vs, h1, h2, h3⟩ | ⟨j, tx, r, e, h1, h2, h3, h4, h5⟩
  · left
    simp only [List.nil_append] at h1
    refine ⟨vs, h2, ?_, ?_⟩
    · intro j tx r ht hrj
      simpa using h3 j tx r (by simpa using ht) hrj
    · cases hs : eth.ReadBorReceipt blockHash (Uint64 block.header.Number) with
      | none =>
        left
        exact ⟨rfl, by simp [GetBlockReceipts, hb, hr, hlen, h1, hs]⟩
      | some syn =>
        right
        cases hf : format (eth.ReadBorTransaction syn.TxHash) syn blockHash syn.TxHash
            (Uint64 block.header.Number) syn.TransactionIndex with
        | ok v =>
          left
          exact ⟨syn, v, rfl, hf, by simp [GetBlockReceipts, hb, hr, hlen, h1, hs, hf]⟩
        | error e =>
          right
          exact ⟨syn, e, rfl, hf, by simp [GetBlockReceipts, hb, hr, hlen, h1, hs, hf]⟩
  · right
    simp only [Nat.zero_add] at h1 h3 h4
    exact ⟨j, tx, r, e, h1, h2, h3, h4, by simp [GetBlockReceipts, hb, hr, hlen, h5]⟩

/-- C11: when the block is found but the receipt store has no list for the
hash, the call fails with the error "receipts not found", which is not the
error of an unknown block, whatever the block, the synthetic store and the
formatter are. -/
theorem missing_receipts_fail {View : Type} (eth : Ethereum) (format : Formatter View)
    (blockHash : Hash) (block : Block)
    (hb : eth.GetBlockByHash blockHash = some block)
    (hr : eth.GetReceiptsByHash blockHash = none) :
    GetBlockReceipts eth format blockHash = .error (.err "receipts not found") ∧
      GetBlockReceipts eth format blockHash ≠ .error (.err "block not found") := by
  have h : GetBlockReceipts eth format blockHash = .error (.err "receipts not found") := by
    simp [GetBlockReceipts, hb, hr, receiptsNotFound]
  refine ⟨h, ?_⟩
  rw [h]
  intro hcon
  have hmsg : "receipts not found" = "block not found" := by
    injection hcon with h1
    injection h1
  exact absurd hmsg (by decide)

/-- C11 on the sample store without a receipt list for hash 500, with a
synthetic receipt present. -/
theorem missing_receipts_fail_witness :
    GetBlockReceipts (sampleStore none (some ⟨77, 5, 1⟩) (some ⟨77⟩)) recordingFormatter 500
        = .error (.err "receipts not found") ∧
      GetBlockReceipts (sampleStore none (some ⟨77, 5, 1⟩) (some ⟨77⟩)) recordingFormatter 500
        ≠ .error (.err "block not found") :=
  missing_receipts_fail (sampleStore none (some ⟨77, 5, 1⟩) (some ⟨77⟩)) recordingFormatter 500
    storedBlock rfl rfl

/-- C12: a successful call means the block is known, its receipt list is
present with as many receipts as transactions, the formatter accepted every
natural pair (and the synthetic pair when a synthetic receipt exists), and the
result has N views without a synthetic receipt and N + 1 with one; and every
call either succeeds or fails with "block not found", "receipts not found", the
count-mismatch error, or an error of the formatter on one of the pairs. -/
theorem success_is_complete {View : Type} (eth : Ethereum) (format : Formatter View)
    (blockHash : Hash) :
    (∀ views, GetBlockReceipts eth format blockHash = .ok views →
      ∃ block receipts, eth.GetBlockByHash blockHash = some block ∧
        eth.GetReceiptsByHash blockHash = some receipts ∧
        receipts.length = block.transactions.length ∧
        (∀ i tx r, block.transactions[i]? = some tx → receipts[i]? = some r →
          ∃ v, views[i]? = some v ∧
            format (some tx) r blockHash tx.hash (Uint64 block.header.Number) i = .ok v) ∧
        ((eth.ReadBorReceipt blockHash (Uint64 block.header.Number) = none ∧
            views.length = block.transactions.length) ∨
          (∃ syn v, eth.ReadBorReceipt blockHash (Uint64 block.header.Number) = some syn ∧
            format (eth.ReadBorTransaction syn.TxHash) syn blockHash syn.TxHash
              (Uint64 block.header.Number) syn.TransactionIndex = .ok v ∧
            views.length = block.transactions.length + 1 ∧
            views[block.transactions.length]? = some v))) ∧
    ((∃ views, GetBlockReceipts eth format blockHash = .ok views) ∨
      GetBlockReceipts eth format blockHash = .error (.err "block not found") ∨
      GetBlockReceipts eth format blockHash = .error (.err "receipts not found") ∨
      GetBlockReceipts eth format blockHash
        = .error (.err "txs length doesn\x27t equal to receipts\x27 length") ∨
      (∃ block receipts e, eth.GetBlockByHash blockHash = some block ∧
        eth.GetReceiptsByHash blockHash = some receipts ∧
        GetBlockReceipts eth format blockHash = .error (.err e) ∧
        ((∃ i tx r, block.transactions[i]? = some tx ∧ receipts[i]? = some r ∧
            format (some tx) r blockHash tx.hash (Uint64 block.header.Number) i = .error e) ∨
          (∃ syn, eth.ReadBorReceipt blockHash (Uint64 block.header.Number) = some syn ∧
            format (eth.ReadBorTransaction syn.TxHash) syn blockHash syn.TxHash
              (Uint64 block.header.Number) syn.TransactionIndex = .error e)))) := by
  cases hb : eth.GetBlockByHash blockHash with
  | none =>
    have h : GetBlockReceipts eth format blockHash = .error (.err "block not found") := by
      simp [GetBlockReceipts, hb, blockNotFound]
    exact ⟨fun views hv => (by rw [h] at hv; cases hv), Or.inr (Or.inl h)⟩
  | some block =>
    cases hr : eth.GetReceiptsByHash blockHash with
    | none =>
      have h : GetBlockReceipts eth format blockHash = .error (.err "receipts not found") := by
        simp [GetBlockReceipts, hb, hr, receiptsNotFound]
      exact ⟨fun views hv => (by rw [h] at hv; cases hv), Or.inr (Or.inr (Or.inl h))⟩
    | some receipts =>
      by_cases hlen : receipts.length = block.transactions.length
      · rcases GetBlockReceipts_outcome eth format blockHash block receipts hb hr hlen with
          ⟨vs, h2, h3, ⟨hs, hres⟩ | ⟨syn, v, hs, hf, hres⟩ | ⟨syn, e, hs, hf, hres⟩⟩ |
          ⟨j, tx, r, e, h1, h2, h3, _, hres⟩
        · refine ⟨fun views hv => ?_, Or.inl ⟨vs, hres⟩⟩
          rw [hres] at hv
          injection hv with hv
          subst hv
          exact ⟨block, receipts, rfl, rfl, hlen, h3, Or.inl ⟨hs, by omega⟩⟩
        · refine ⟨fun views hv => ?_, Or.inl ⟨_, hres⟩⟩
          rw [hres] at hv
          injection hv with hv
          subst hv
          refine ⟨block, receipts, rfl, rfl, hlen, ?_, Or.inr ⟨syn, v, hs, hf, by simp; omega, ?_⟩⟩
          · intro i tx r ht hri
            obtain ⟨w, hw1, hw2⟩ := h3 i tx r ht hri
            refine ⟨w, ?_, hw2⟩
            have hi : i < vs.length := by
              by_contra hcon
              rw [List.getElem?_eq_none (by omega)] at hw1
              cases hw1
            rw [List.getElem?_append_left hi]
            exact hw1
          · have hN : block.transactions.length = vs.length := by omega
            rw [hN]
            simp
        · refine ⟨fun views hv => (by rw [hres] at hv; cases hv), ?_⟩
          exact Or.inr (Or.inr (Or.inr (Or.inr
            ⟨block, receipts, e, rfl, rfl, hres, Or.inr ⟨syn, hs, hf⟩⟩)))
        · refine ⟨fun views hv => (by rw [hres] at hv; cases hv), ?_⟩
          exact Or.inr (Or.inr (Or.inr (Or.inr
            ⟨block, receipts, e, rfl, rfl, hres, Or.inl ⟨j, tx, r, h1, h2, h3⟩⟩)))
      · have hne : block.transactions.length ≠ receipts.length := fun h => hlen h.symm
        have h : GetBlockReceipts eth format blockHash
            = .error (.err "txs length doesn\x27t equal to receipts\x27 length") := by
          simp [GetBlockReceipts, hb, hr, hne, countMismatch]
        exact ⟨fun views hv => (by rw [h] at hv; cases hv), Or.inr (Or.inr (Or.inr (Or.inl h)))⟩

/-- C12 on the sample store with a synthetic receipt: the successful call has
three views for two transactions. -/
theorem success_is_complete_witness :
    ∃ block receipts,
      (sampleStore (some [⟨11, 0, 1⟩, ⟨12, 1, 1⟩]) (some ⟨77, 5, 1⟩) (some ⟨77⟩)).GetBlockByHash 500
        = some block ∧
      (sampleStore (some [⟨11, 0, 1⟩, ⟨12, 1, 1⟩]) (some ⟨77, 5, 1⟩)
        (some ⟨77⟩)).GetReceiptsByHash 500 = some receipts ∧
      receipts.length = block.transactions.length ∧
      [(⟨some ⟨11⟩, ⟨11, 0, 1⟩, 500, 11, 7, 0⟩ : ReceiptFields),
        ⟨some ⟨12⟩, ⟨12, 1, 1⟩, 500, 12, 7, 1⟩,
        ⟨some ⟨77⟩, ⟨77, 5, 1⟩, 500, 77, 7, 5⟩].length = block.transactions.length + 1 := by
  obtain ⟨block, receipts, h1, h2, h3, _, h5⟩ :=
    (success_is_complete (sampleStore (some [⟨11, 0, 1⟩, ⟨12, 1, 1⟩]) (some ⟨77, 5, 1⟩)
      (some ⟨77⟩)) recordingFormatter 500).1
      [⟨some ⟨11⟩, ⟨11, 0, 1⟩, 500, 11, 7, 0⟩, ⟨some ⟨12⟩, ⟨12, 1, 1⟩, 500, 12, 7, 1⟩,
        ⟨some ⟨77⟩, ⟨77, 5, 1⟩, 500, 77, 7, 5⟩] rfl
  refine ⟨block, receipts, h1, h2, h3, ?_⟩
  rcases h5 with ⟨hn, _⟩ | ⟨_, _, _, _, hl, _⟩
  · rw [h1.symm.trans (rfl : _ = some storedBlock) |> Option.some.inj] at hn
    exact absurd hn (by decide)
  · exact hl

/-- Every call of `GetBlockReceipts` ends with a list of views or with a
returned error value. -/
theorem GetBlockReceipts_ok_or_err {View : Type} (eth : Ethereum) (format : Formatter View)
    (blockHash : Hash) :
    (∃ views, GetBlockReceipts eth format blockHash = .ok views) ∨
      ∃ e, GetBlockReceipts eth format blockHash = .error (.err e) := by
  cases hb : eth.GetBlockByHash blockHash with
  | none => exact Or.inr ⟨blockNotFound, by simp [GetBlockReceipts, hb]⟩
  | some block =>
    cases hr : eth.GetReceiptsByHash blockHash with
    | none => exact Or.inr ⟨receiptsNotFound, by simp [GetBlockReceipts, hb, hr]⟩
    | some receipts =>
      by_cases hlen : receipts.length = block.transactions.length
      · rcases GetBlockReceipts_outcome eth format blockHash block receipts hb hr hlen with
          ⟨vs, _, _, ⟨_, hres⟩ | ⟨_, v, _, _, hres⟩ | ⟨_, e, _, _, hres⟩⟩ |
          ⟨_, _, _, e, _, _, _, _, hres⟩
        · exact Or.inl ⟨_, hres⟩
        · exact Or.inl ⟨_, hres⟩
        · exact Or.inr ⟨e, hres⟩
        · exact Or.inr ⟨e, hres⟩
      · have hne : block.transactions.length ≠ receipts.length := fun h => hlen h.symm
        exact Or.inr ⟨countMismatch, by simp [GetBlockReceipts, hb, hr, hne]⟩

/-- The loop on its own, run on more receipts than transactions, does index out
of range: the length check before it is what excludes this. -/
theorem formatLoop_unguarded_out_of_range :
    formatLoop recordingFormatter [⟨11⟩] 500 7 [⟨11, 0, 1⟩, ⟨12, 1, 1⟩] 0 []
      = .error .indexOutOfRange := by
  rfl

/-- Where the chain view has a block at the number of each present signal that
is not above the height, `getFinalizedBlockNumber` and the reference resolver
give the same result. -/
theorem resolver_agrees_where_blocks_exist (eth : Ethereum)
    (hm : eth.GetWhitelistedMilestone.doExist = true →
      eth.GetWhitelistedMilestone.number ≤ Uint64 eth.CurrentBlock.Number →
      ∃ b, eth.GetBlockByNumber eth.GetWhitelistedMilestone.number = some b)
    (hc : eth.GetWhitelistedCheckpoint.doExist = true →
      eth.GetWhitelistedCheckpoint.number ≤ Uint64 eth.CurrentBlock.Number →
      ∃ b, eth.GetBlockByNumber eth.GetWhitelistedCheckpoint.number = some b) :
    getFinalizedBlockNumber eth = referenceResolver eth := by
  have tier : ∀ s : Whitelisted,
      (s.doExist = true → s.number ≤ Uint64 eth.CurrentBlock.Number →
        ∃ b, eth.GetBlockByNumber s.number = some b) →
      (if (s.doExist && decide (s.number ≤ Uint64 eth.CurrentBlock.Number)) = true then
        (match eth.GetBlockByNumber s.number with
          | none => (.error .nilPointerDereference : Except Failure (Option Nat))
          | some block => if block.hash = s.hash then .ok (some s.number) else .ok none)
        else .ok none)
        = .ok (if signalMatches eth s (Uint64 eth.CurrentBlock.Number) = true
            then some s.number else none) := by
    intro s hs
    by_cases hp : s.doExist = true
    · by_cases hn : s.number ≤ Uint64 eth.CurrentBlock.Number
      · obtain ⟨b, hb⟩ := hs hp hn
        by_cases hh : b.hash = s.hash <;> simp [signalMatches, hp, hn, hb, hh]
      · simp [signalMatches, hp, hn]
    · simp [signalMatches, hp]
  simp only [getFinalizedBlockNumber, tier _ hm, tier _ hc, referenceResolver, List.find?]
  by_cases h1 : signalMatches eth eth.GetWhitelistedMilestone (Uint64 eth.CurrentBlock.Number)
      = true
  · simp [h1]
  · by_cases h2 : signalMatches eth eth.GetWhitelistedCheckpoint
        (Uint64 eth.CurrentBlock.Number) = true
    · simp [h1, h2]
    · simp [h1, h2]

/-- C14: on a chain of height 100 that has no block at number 40, with the
milestone absent and the checkpoint present at 40, `getFinalizedBlockNumber`
ends in a nil pointer dereference while the reference resolver fails with
"No finalized block": the two are not equal on this input. -/
theorem resolver_differs_from_reference :
    getFinalizedBlockNumber (prunedChain ⟨false, 0, 0⟩ ⟨true, 40, 1040⟩)
        = .error .nilPointerDereference ∧
      referenceResolver (prunedChain ⟨false, 0, 0⟩ ⟨true, 40, 1040⟩)
        = .error (.err "No finalized block") := by
  constructor <;> rfl

/-- C15: the call never ends in an index out of range, and whenever the loop is
reached (block and receipts found, lengths not different) every index below the
number of receipts has a transaction. -/
theorem loop_index_in_bounds {View : Type} (eth : Ethereum) (format : Formatter View)
    (blockHash : Hash) :
    GetBlockReceipts eth format blockHash ≠ .error .indexOutOfRange ∧
      ∀ block receipts, eth.GetBlockByHash blockHash = some block →
        eth.GetReceiptsByHash blockHash = some receipts →
        ¬ (block.transactions.length ≠ receipts.length) →
        ∀ idx, idx < receipts.length → ∃ tx, block.transactions[idx]? = some tx := by
  constructor
  · rcases GetBlockReceipts_ok_or_err eth format blockHash with ⟨views, h⟩ | ⟨e, h⟩
    · rw [h]
      intro hcon
      cases hcon
    · rw [h]
      intro hcon
      injection hcon with h1
      cases h1
  · intro block receipts _ _ hlen idx hidx
    have hlen2 : block.transactions.length = receipts.length := not_not.mp hlen
    have hi : idx < block.transactions.length := by omega
    exact ⟨block.transactions[idx], List.getElem?_eq_getElem hi⟩

/-- C16: with the block and its receipts found and the counts equal, the error
of the formatter at the smallest natural index where it fails is the error of
the call, whatever the synthetic store holds; and the error of the formatter on
the synthetic pair is the error of the call when every natural pair succeeded. -/
theorem first_formatter_error_returned {View : Type} (eth : Ethereum)
    (format : Formatter View) (blockHash : Hash) (block : Block) (receipts : List Receipt)
    (hb : eth.GetBlockByHash blockHash = some block)
    (hr : eth.GetReceiptsByHash blockHash = some receipts)
    (hlen : receipts.length = block.transactions.length) :
    (∀ i tx r e, block.transactions[i]? = some tx → receipts[i]? = some r →
      format (some tx) r blockHash tx.hash (Uint64 block.header.Number) i = .error e →
      (∀ k tx r, k < i → block.transactions[k]? = some tx → receipts[k]? = some r →
        ∃ v, format (some tx) r blockHash tx.hash (Uint64 block.header.Number) k = .ok v) →
      GetBlockReceipts eth format blockHash = .error (.err e)) ∧
    (∀ syn e, eth.ReadBorReceipt blockHash (Uint64 block.header.Number) = some syn →
      format (eth.ReadBorTransaction syn.TxHash) syn blockHash syn.TxHash
        (Uint64 block.header.Number) syn.TransactionIndex = .error e →
      (∀ k tx r, block.transactions[k]? = some tx → receipts[k]? = some r →
        ∃ v, format (some tx) r blockHash tx.hash (Uint64 block.header.Number) k = .ok v) →
      GetBlockReceipts eth format blockHash = .error (.err e)) := by
  constructor
  · intro i tx r e ht hri he hsmall
    rcases GetBlockReceipts_outcome eth format blockHash block receipts hb hr hlen with
      ⟨vs, _, h3, _⟩ | ⟨j, tx2, r2, e2, h1, h2, h3, h4, hres⟩
    · obtain ⟨v, _, hv⟩ := h3 i tx r ht hri
      rw [hv] at he
      cases he
    · rcases Nat.lt_trichotomy j i with hlt | heq | hgt
      · obtain ⟨v, hv⟩ := hsmall j tx2 r2 hlt h1 h2
        rw [hv] at h3
        cases h3
      · subst heq
        rw [ht] at h1
        rw [hri] at h2
        injection h1 with h1
        injection h2 with h2
        subst h1
        subst h2
        rw [he] at h3
        injection h3 with h3
        rw [hres, h3]
      · obtain ⟨v, hv⟩ := h4 i tx r hgt ht hri
        rw [hv] at he
        cases he
  · intro syn e hs he hall
    rcases GetBlockReceipts_outcome eth format blockHash block receipts hb hr hlen with
      ⟨vs, _, _, ⟨hs2, _⟩ | ⟨syn2, v, hs2, hf, _⟩ | ⟨syn2, e2, hs2, hf, hres⟩⟩ |
      ⟨j, tx2, r2, e2, h1, h2, h3, _, _⟩
    · rw [hs] at hs2
      cases hs2
    · rw [hs] at hs2
      injection hs2 with hs2
      subst hs2
      rw [he] at hf
      cases hf
    · rw [hs] at hs2
      injection hs2 with hs2
      subst hs2
      rw [he] at hf
      injection hf with hf
      rw [hres, hf]
    · obtain ⟨v, hv⟩ := hall j tx2 r2 h1 h2
      rw [hv] at h3
      cases h3

/-- C16 on the sample store where the formatter rejects both natural pairs and
the synthetic pair: the call fails with the error of the pair at index 0. -/
theorem first_formatter_error_returned_witness :
    GetBlockReceipts (sampleStore (some [⟨11, 0, 0⟩, ⟨12, 1, 0⟩]) (some ⟨77, 5, 0⟩) (some ⟨77⟩))
      strictFormatter 500 = .error (.err "receipt without outcome") :=
  (first_formatter_error_returned
    (sampleStore (some [⟨11, 0, 0⟩, ⟨12, 1, 0⟩]) (some ⟨77, 5, 0⟩) (some ⟨77⟩))
    strictFormatter 500 storedBlock [⟨11, 0, 0⟩, ⟨12, 1, 0⟩] rfl rfl rfl).1
    0 ⟨11⟩ ⟨11, 0, 0⟩ "receipt without outcome" rfl rfl rfl
    (fun _ _ _ hk _ _ => absurd hk (Nat.not_lt_zero _))

/-- C17: when a synthetic receipt exists, the store has no transaction under its
hash, and the natural pairs are accepted, the formatter is called with the nil
transaction and (receipt, blockHash, receipt.TxHash, block number, recorded
index); its output is appended to the N natural views, and its error is the
error of the call. -/
theorem missing_synthetic_transaction_passed_on {View : Type} (eth : Ethereum)
    (format : Formatter View) (blockHash : Hash) (block : Block) (receipts : List Receipt)
    (syn : Receipt)
    (hb : eth.GetBlockByHash blockHash = some block)
    (hr : eth.GetReceiptsByHash blockHash = some receipts)
    (hlen : receipts.length = block.transactions.length)
    (hs : eth.ReadBorReceipt blockHash (Uint64 block.header.Number) = some syn)
    (ht : eth.ReadBorTransaction syn.TxHash = none)
    (hf : ∀ i tx r, block.transactions[i]? = some tx → receipts[i]? = some r →
      ∃ v, format (some tx) r blockHash tx.hash (Uint64 block.header.Number) i = .ok v) :
    (∀ v, format none syn blockHash syn.TxHash (Uint64 block.header.Number)
        syn.TransactionIndex = .ok v →
      ∃ views, GetBlockReceipts eth format blockHash = .ok (views ++ [v]) ∧
        views.length = block.transactions.length ∧
        ∀ i tx r, block.transactions[i]? = some tx → receipts[i]? = some r →
          ∃ w, views[i]? = some w ∧
            format (some tx) r blockHash tx.hash (Uint64 block.header.Number) i = .ok w) ∧
    (∀ e, format none syn blockHash syn.TxHash (Uint64 block.header.Number)
        syn.TransactionIndex = .error e →
      GetBlockReceipts eth format blockHash = .error (.err e)) := by
  rcases GetBlockReceipts_outcome eth format blockHash block receipts hb hr hlen with
    ⟨vs, h2, h3, ⟨hs2, _⟩ | ⟨syn2, v2, hs2, hf2, hres⟩ | ⟨syn2, e2, hs2, hf2, hres⟩⟩ |
    ⟨j, tx2, r2, e2, h1, h2, h3, _, _⟩
  · rw [hs] at hs2
    cases hs2
  · rw [hs] at hs2
    injection hs2 with hs2
    subst hs2
    rw [ht] at hf2
    constructor
    · intro v hv
      rw [hf2] at hv
      injection hv with hv
      subst hv
      exact ⟨vs, hres, by omega, h3⟩
    · intro e he
      rw [hf2] at he
      cases he
  · rw [hs] at hs2
    injection hs2 with hs2
    subst hs2
    rw [ht] at hf2
    constructor
    · intro v hv
      rw [hf2] at hv
      cases hv
    · intro e he
      rw [hf2] at he
      injection he with he
      rw [hres, he]
  · obtain ⟨v, hv⟩ := hf j tx2 r2 h1 h2
    rw [hv] at h3
    cases h3

/-- C17 on the sample store with a synthetic receipt and no synthetic
transaction: the third view is built from the nil transaction. -/
theorem missing_synthetic_transaction_passed_on_witness :
    ∃ views, GetBlockReceipts
        (sampleStore (some [⟨11, 0, 1⟩, ⟨12, 1, 1⟩]) (some ⟨77, 5, 1⟩) none)
        recordingFormatter 500 = .ok (views ++ [⟨none, ⟨77, 5, 1⟩, 500, 77, 7, 5⟩]) ∧
      views.length = storedBlock.transactions.length ∧
      ∀ i tx r, storedBlock.transactions[i]? = some tx →
        [(⟨11, 0, 1⟩ : Receipt), ⟨12, 1, 1⟩][i]? = some r →
        ∃ w, views[i]? = some w ∧
          recordingFormatter (some tx) r 500 tx.hash (Uint64 storedBlock.header.Number) i
            = .ok w :=
  (missing_synthetic_transaction_passed_on
    (sampleStore (some [⟨11, 0, 1⟩, ⟨12, 1, 1⟩]) (some ⟨77, 5, 1⟩) none)
    recordingFormatter 500 storedBlock [⟨11, 0, 1⟩, ⟨12, 1, 1⟩] ⟨77, 5, 1⟩ rfl rfl rfl rfl rfl
    (fun _ _ _ _ _ => ⟨_, rfl⟩)).1 ⟨none, ⟨77, 5, 1⟩, 500, 77, 7, 5⟩ rfl

/-- A signal that matches at one height matches at every greater height of the
same chain view. -/
theorem signalMatches_mono (eth : Ethereum) (header' : Header) (s : Whitelisted) (H H' : Nat)
    (hH : H ≤ H') (h : signalMatches eth s H = true) :
    signalMatches { eth with CurrentBlock := header' } s H' = true := by
  simp only [signalMatches, Bool.and_eq_true, decide_eq_true_eq] at h ⊢
  exact ⟨⟨h.1.1, le_trans h.1.2 hH⟩, h.2⟩

/-- C18: with the signals and the blocks by number fixed and a block at every
number up to the new height, a call that returns `n` at one height returns, at
every greater height, `n` or the milestone's number. -/
theorem finalized_monotone_in_height (eth : Ethereum) (header' : Header) (n : Nat)
    (hH : Uint64 eth.CurrentBlock.Number ≤ Uint64 header'.Number)
    (hblocks : ∀ k, k ≤ Uint64 header'.Number → ∃ b, eth.GetBlockByNumber k = some b)
    (h : getFinalizedBlockNumber eth = .ok n) :
    getFinalizedBlockNumber { eth with CurrentBlock := header' } = .ok n ∨
      getFinalizedBlockNumber { eth with CurrentBlock := header' }
        = .ok eth.GetWhitelistedMilestone.number := by
  have e1 : getFinalizedBlockNumber eth = referenceResolver eth :=
    resolver_agrees_where_blocks_exist eth (fun _ hn => hblocks _ (le_trans hn hH))
      (fun _ hn => hblocks _ (le_trans hn hH))
  have e2 : getFinalizedBlockNumber { eth with CurrentBlock := header' }
      = referenceResolver { eth with CurrentBlock := header' } :=
    resolver_agrees_where_blocks_exist { eth with CurrentBlock := header' }
      (fun _ hn => hblocks _ hn) (fun _ hn => hblocks _ hn)
  rw [e1] at h
  rw [e2]
  have mono := signalMatches_mono eth header'
  simp only [referenceResolver, List.find?] at h ⊢
  cases hm : signalMatches eth eth.GetWhitelistedMilestone (Uint64 eth.CurrentBlock.Number) with
  | true =>
    have hm2 := mono _ _ _ hH hm
    right
    simp [hm2]
  | false =>
    cases hc : signalMatches eth eth.GetWhitelistedCheckpoint
        (Uint64 eth.CurrentBlock.Number) with
    | true =>
      have hc2 := mono _ _ _ hH hc
      simp only [hm, hc] at h
      have hn : eth.GetWhitelistedCheckpoint.number = n := by
        injection h
      cases hm2 : signalMatches { eth with CurrentBlock := header' }
          eth.GetWhitelistedMilestone (Uint64 header'.Number) with
      | true =>
        right
        simp [hm2]
      | false =>
        left
        simp [hm2, hc2, hn]
    | false =>
      simp only [hm, hc] at h
      cases h

/-- C18 on the sample chain: at height 100 the milestone at 110 is too new and
the checkpoint 50 is returned; at height 120 the milestone's number is. -/
theorem finalized_monotone_in_height_witness :
    getFinalizedBlockNumber
        { sampleChain ⟨true, 110, 1110⟩ ⟨true, 50, 1050⟩ with CurrentBlock := ⟨120⟩ } = .ok 50 ∨
      getFinalizedBlockNumber
        { sampleChain ⟨true, 110, 1110⟩ ⟨true, 50, 1050⟩ with CurrentBlock := ⟨120⟩ }
        = .ok (sampleChain ⟨true, 110, 1110⟩ ⟨true, 50, 1050⟩).GetWhitelistedMilestone.number :=
  finalized_monotone_in_height (sampleChain ⟨true, 110, 1110⟩ ⟨true, 50, 1050⟩) ⟨120⟩ 50
    (by decide) (fun k _ => ⟨sampleBlock k, rfl⟩) rfl

end EthApi
